import Mathlib

/-!
Verification of the LLM Council frontend core against its specification.

The development shallowly embeds the JavaScript source:
- `encodeWav` / `floatTo16BitPCM` (ChatInterface): float samples are modelled
  as rationals (every finite JS float amplitude is rational, and the
  multiplications by 32767/32768 performed by the code are exact in binary
  floating point for 32-bit input samples); `DataView` byte buffers are
  modelled as `List Nat` of byte values with explicit little-endian writes.
- `localConversations` (the localStorage-backed store): `localStorage` values
  are modelled by `JsValue`, which records the outcome of `JSON.parse`
  (unparseable, a non-object primitive, an object, or an array) rather than
  the raw character strings; `JSON.stringify` followed by `JSON.parse` of a
  well-formed record is modelled as the identity.
- `handleSendMessage` / stream event handling (App): React state is modelled
  by `AppState`; a React event handler reads the render-time snapshot of
  `useState` values (`Snapshot`) while `set*` calls and functional updaters
  act on the live state, which is threaded sequentially (the scheduling is
  single-threaded and the code processes stream events strictly in order).
- the SSE reader (`api.sendMessageStream`): `JSON.parse` of event payloads is
  an abstract partial function `String → Option α`.
-/

namespace LLMCouncil

/-! ### Byte-level primitives for the DataView model -/

/-- Write the values `vs` into `buf` starting at position `off`, one cell per
index (out-of-range writes are dropped by `List.set`, matching the fact that
`encodeWav` never writes out of range of its allocated buffer). -/
def writeAt {α : Type} (buf : List α) (off : Nat) (vs : List α) : List α :=
  match vs with
  | [] => buf
  | v :: rest => writeAt (buf.set off v) (off + 1) rest

/-- The two little-endian bytes stored by `DataView.setUint16 (..., true)`. -/
def u16le (v : Nat) : List Nat := [v % 256, v / 256 % 256]

/-- The four little-endian bytes stored by `DataView.setUint32 (..., true)`. -/
def u32le (v : Nat) : List Nat :=
  [v % 256, v / 256 % 256, v / 65536 % 256, v / 16777216 % 256]

/-- `writeString(view, offset, s)` writes `s.charCodeAt(i)` for each `i`. -/
def charCodes (s : String) : List Nat := s.data.map Char.toNat

/-- JavaScript `ToIntegerOrInfinity`-style truncation toward zero, as
performed by `DataView.setInt16` on a non-integral number. -/
def jsTrunc (q : ℚ) : Int := if q < 0 then -(Int.floor (-q)) else Int.floor q

/-- The quantization performed inside `floatTo16BitPCM`:
`const s = Math.max(-1, Math.min(1, input[i]));`
`s < 0 ? s * 0x8000 : s * 0x7fff`. -/
def quantize16 (x : ℚ) : Int :=
  let s := max (-1) (min 1 x)
  if s < 0 then jsTrunc (s * 32768) else jsTrunc (s * 32767)

/-- Reduction of a signed 16-bit value to the unsigned two's-complement
bit pattern stored by `DataView.setInt16`. -/
def int16ToU16 (v : Int) : Nat := (v % 65536).toNat

/-- Source: `floatTo16BitPCM(output, offset, input)` — write each quantized
sample as a little-endian signed 16-bit integer, advancing the offset by 2. -/
def floatTo16BitPCM (output : List Nat) (offset : Nat) (input : List ℚ) : List Nat :=
  match input with
  | [] => output
  | s :: rest =>
      floatTo16BitPCM (writeAt output offset (u16le (int16ToU16 (quantize16 s)))) (offset + 2) rest

/-- Source: `encodeWav({ samples, sampleRate, numChannels = 1 })`. The
`ArrayBuffer(44 + samples.length * bytesPerSample)` is a zero-initialized
byte buffer; each `view.set...` call is a `writeAt` at the same offset with
the same little-endian bytes. -/
def encodeWav (samples : List ℚ) (sampleRate : Nat) (numChannels : Nat) : List Nat :=
  let bytesPerSample := 2
  let blockAlign := numChannels * bytesPerSample
  let buffer := List.replicate (44 + samples.length * bytesPerSample) 0
  let b0 := writeAt buffer 0 (charCodes "RIFF")
  let b1 := writeAt b0 4 (u32le (36 + samples.length * bytesPerSample))
  let b2 := writeAt b1 8 (charCodes "WAVE")
  let b3 := writeAt b2 12 (charCodes "fmt ")
  let b4 := writeAt b3 16 (u32le 16)
  let b5 := writeAt b4 20 (u16le 1)
  let b6 := writeAt b5 22 (u16le numChannels)
  let b7 := writeAt b6 24 (u32le sampleRate)
  let b8 := writeAt b7 28 (u32le (sampleRate * blockAlign))
  let b9 := writeAt b8 32 (u16le blockAlign)
  let b10 := writeAt b9 34 (u16le 16)
  let b11 := writeAt b10 36 (charCodes "data")
  let b12 := writeAt b11 40 (u32le (samples.length * bytesPerSample))
  floatTo16BitPCM b12 44 samples

/-- The 44-byte header contents, laid out field by field. -/
def wavHeader (n sampleRate numChannels : Nat) : List Nat :=
  charCodes "RIFF" ++ u32le (36 + n * 2) ++ charCodes "WAVE" ++ charCodes "fmt " ++
  u32le 16 ++ u16le 1 ++ u16le numChannels ++ u32le sampleRate ++
  u32le (sampleRate * (numChannels * 2)) ++ u16le (numChannels * 2) ++ u16le 16 ++
  charCodes "data" ++ u32le (n * 2)

/-- The PCM payload: each sample quantized and written little-endian. -/
def pcmBytes (samples : List ℚ) : List Nat :=
  (samples.map (fun s => u16le (int16ToU16 (quantize16 s)))).flatten

/-- Read back a little-endian 16-bit field from a byte buffer. -/
def readU16le (b : List Nat) (off : Nat) : Nat := b.getD off 0 + 256 * b.getD (off + 1) 0

/-- Read back a little-endian 32-bit field from a byte buffer. -/
def readU32le (b : List Nat) (off : Nat) : Nat :=
  b.getD off 0 + 256 * b.getD (off + 1) 0 + 65536 * b.getD (off + 2) 0 +
    16777216 * b.getD (off + 3) 0

theorem writeAt_length {α : Type} (vs : List α) :
    ∀ (buf : List α) (off : Nat), (writeAt buf off vs).length = buf.length := by
  induction vs with
  | nil => intro buf off; rfl
  | cons v rest ih => intro buf off; simp [writeAt, ih]

theorem writeAt_shift {α : Type} (vs : List α) :
    ∀ (xs ys : List α) (k : Nat),
      writeAt (xs ++ ys) (xs.length + k) vs = xs ++ writeAt ys k vs := by
  induction vs with
  | nil => intro xs ys k; rfl
  | cons v rest ih =>
      intro xs ys k
      have hset : (xs ++ ys).set (xs.length + k) v = xs ++ ys.set k v := by
        rw [List.set_append_right _ _ (Nat.le_add_right _ _)]
        simp
      simp only [writeAt, hset]
      have : xs.length + k + 1 = xs.length + (k + 1) := by omega
      rw [this, ih]

theorem writeAt_zero {α : Type} (vs : List α) :
    ∀ (ys : List α), vs.length ≤ ys.length →
      writeAt ys 0 vs = vs ++ ys.drop vs.length := by
  induction vs with
  | nil => intro ys _; simp [writeAt]
  | cons v rest ih =>
      intro ys h
      cases ys with
      | nil => simp at h
      | cons y t =>
          have h' : rest.length ≤ t.length := by simpa using h
          simp only [writeAt, List.set_cons_zero]
          have : writeAt (v :: t) 1 rest = [v] ++ writeAt t 0 rest := by
            have := writeAt_shift rest [v] t 0
            simpa using this
          rw [this, ih t h']
          simp

/-- Writing a chunk at the boundary between a finished prefix and a pending
suffix extends the prefix. -/
theorem writeAt_chunk {α : Type} (done rest vs : List α) (off : Nat)
    (h1 : done.length = off) (h2 : vs.length ≤ rest.length) :
    writeAt (done ++ rest) off vs = (done ++ vs) ++ rest.drop vs.length := by
  subst h1
  have := writeAt_shift vs done rest 0
  simp only [Nat.add_zero] at this
  rw [this, writeAt_zero vs rest h2, List.append_assoc]

theorem floatTo16BitPCM_eq (samples : List ℚ) :
    ∀ (done rest : List Nat), rest.length = 2 * samples.length →
      floatTo16BitPCM (done ++ rest) done.length samples = done ++ pcmBytes samples := by
  induction samples with
  | nil => intro done rest h; simp at h; simp [floatTo16BitPCM, pcmBytes, h]
  | cons s ss ih =>
      intro done rest h
      have hr : rest.length = 2 * ss.length + 2 := by
        simp only [List.length_cons] at h; omega
      have h2 : (u16le (int16ToU16 (quantize16 s))).length ≤ rest.length := by
        simp [u16le]; omega
      simp only [floatTo16BitPCM]
      rw [writeAt_chunk done rest _ done.length rfl h2]
      have hlen : (done ++ u16le (int16ToU16 (quantize16 s))).length = done.length + 2 := by
        simp [u16le]
      have hrest : (rest.drop (u16le (int16ToU16 (quantize16 s))).length).length = 2 * ss.length := by
        simp [u16le]; omega
      rw [← hlen, ih _ _ hrest]
      simp [pcmBytes, List.append_assoc]

/-- A sequence of contiguous `writeAt` calls starting at `off`. -/
def writeSeq (buf : List Nat) (off : Nat) (chunks : List (List Nat)) : List Nat :=
  match chunks with
  | [] => buf
  | c :: rest => writeSeq (writeAt buf off c) (off + c.length) rest

theorem writeSeq_eq (chunks : List (List Nat)) :
    ∀ (done : List Nat) (m : Nat), (chunks.map List.length).sum ≤ m →
      writeSeq (done ++ List.replicate m 0) done.length chunks =
        (done ++ chunks.flatten) ++ List.replicate (m - (chunks.map List.length).sum) 0 := by
  induction chunks with
  | nil => intro done m _; simp [writeSeq]
  | cons c rest ih =>
      intro done m h
      have hsum : c.length + (rest.map List.length).sum ≤ m := by
        simpa using h
      have hc : c.length ≤ (List.replicate m (0:Nat)).length := by
        simp; omega
      simp only [writeSeq]
      rw [writeAt_chunk done _ c done.length rfl hc]
      have hd : (done ++ c).length = done.length + c.length := by simp
      rw [List.drop_replicate, ← hd, ih (done ++ c) (m - c.length) (by omega)]
      simp only [List.flatten_cons, List.map_cons, List.sum_cons, List.append_assoc]
      have hm : m - c.length - (rest.map List.length).sum
          = m - (c.length + (rest.map List.length).sum) := by omega
      rw [hm]

theorem charCodes_RIFF : charCodes "RIFF" = [82, 73, 70, 70] := by decide

theorem charCodes_WAVE : charCodes "WAVE" = [87, 65, 86, 69] := by decide

theorem charCodes_fmt : charCodes "fmt " = [102, 109, 116, 32] := by decide

theorem charCodes_data : charCodes "data" = [100, 97, 116, 97] := by decide

/-- `encodeWav` produces exactly the 44-byte header followed by the
quantized little-endian PCM payload. -/
theorem encodeWav_eq (samples : List ℚ) (rate ch : Nat) :
    encodeWav samples rate ch = wavHeader samples.length rate ch ++ pcmBytes samples := by
  have hrfl : encodeWav samples rate ch =
      floatTo16BitPCM (writeSeq (List.replicate (44 + samples.length * 2) 0) 0
        [charCodes "RIFF", u32le (36 + samples.length * 2), charCodes "WAVE", charCodes "fmt ",
         u32le 16, u16le 1, u16le ch, u32le rate, u32le (rate * (ch * 2)),
         u16le (ch * 2), u16le 16, charCodes "data", u32le (samples.length * 2)]) 44 samples := rfl
  have hsum : (([charCodes "RIFF", u32le (36 + samples.length * 2), charCodes "WAVE",
      charCodes "fmt ", u32le 16, u16le 1, u16le ch, u32le rate, u32le (rate * (ch * 2)),
      u16le (ch * 2), u16le 16, charCodes "data",
      u32le (samples.length * 2)]).map List.length).sum = 44 := by
    simp [charCodes_RIFF, charCodes_WAVE, charCodes_fmt, charCodes_data, u32le, u16le]
  have hbuf : List.replicate (44 + samples.length * 2) (0:Nat) =
      ([] : List Nat) ++ List.replicate (44 + samples.length * 2) 0 := by simp
  have hseq := writeSeq_eq
    [charCodes "RIFF", u32le (36 + samples.length * 2), charCodes "WAVE", charCodes "fmt ",
     u32le 16, u16le 1, u16le ch, u32le rate, u32le (rate * (ch * 2)),
     u16le (ch * 2), u16le 16, charCodes "data", u32le (samples.length * 2)]
    [] (44 + samples.length * 2) (by rw [hsum]; omega)
  rw [hsum] at hseq
  simp only [List.nil_append, List.length_nil] at hseq
  have hflatlen : (([charCodes "RIFF", u32le (36 + samples.length * 2), charCodes "WAVE",
      charCodes "fmt ", u32le 16, u16le 1, u16le ch, u32le rate, u32le (rate * (ch * 2)),
      u16le (ch * 2), u16le 16, charCodes "data",
      u32le (samples.length * 2)]).flatten).length = 44 := by
    simp [charCodes_RIFF, charCodes_WAVE, charCodes_fmt, charCodes_data, u32le, u16le]
  rw [hrfl, hseq]
  have hdrop : 44 + samples.length * 2 - 44 = samples.length * 2 := by omega
  rw [hdrop, ← hflatlen,
      floatTo16BitPCM_eq samples _ (List.replicate (samples.length * 2) 0) (by simp; omega)]
  simp [wavHeader, List.append_assoc]

theorem u16le_length (v : Nat) : (u16le v).length = 2 := rfl

theorem pcmBytes_cons (s : ℚ) (ss : List ℚ) :
    pcmBytes (s :: ss) = u16le (int16ToU16 (quantize16 s)) ++ pcmBytes ss := by
  simp [pcmBytes]

theorem pcmBytes_length (samples : List ℚ) : (pcmBytes samples).length = 2 * samples.length := by
  induction samples with
  | nil => simp [pcmBytes]
  | cons s ss ih =>
      rw [pcmBytes_cons, List.length_append, u16le_length, ih, List.length_cons]
      omega

theorem wavHeader_length (n rate ch : Nat) : (wavHeader n rate ch).length = 44 := by
  simp [wavHeader, u32le, u16le, charCodes_RIFF, charCodes_WAVE, charCodes_fmt, charCodes_data]

theorem int16ToU16_lt (v : Int) : int16ToU16 v < 65536 := by
  have h1 : 0 ≤ v % 65536 := Int.emod_nonneg v (by norm_num)
  have h2 : v % 65536 < 65536 := Int.emod_lt_of_pos v (by norm_num)
  unfold int16ToU16
  omega

theorem getD_append_left' (l₁ l₂ : List Nat) (n : Nat) (h : n < l₁.length) :
    (l₁ ++ l₂).getD n 0 = l₁.getD n 0 := by
  simp [List.getD_eq_getElem?_getD, List.getElem?_append_left h]

theorem getD_append_right' (l₁ l₂ : List Nat) (n : Nat) (h : l₁.length ≤ n) :
    (l₁ ++ l₂).getD n 0 = l₂.getD (n - l₁.length) 0 := by
  simp [List.getD_eq_getElem?_getD, List.getElem?_append_right h]

theorem pcmBytes_getD (samples : List ℚ) :
    ∀ i, i < samples.length →
      (pcmBytes samples).getD (2 * i) 0 = int16ToU16 (quantize16 (samples.getD i 0)) % 256 ∧
      (pcmBytes samples).getD (2 * i + 1) 0
        = int16ToU16 (quantize16 (samples.getD i 0)) / 256 % 256 := by
  induction samples with
  | nil => intro i hi; simp at hi
  | cons s ss ih =>
      intro i hi
      have hcons : pcmBytes (s :: ss) =
          int16ToU16 (quantize16 s) % 256 ::
            int16ToU16 (quantize16 s) / 256 % 256 :: pcmBytes ss := by
        simp [pcmBytes, u16le]
      cases i with
      | zero => rw [hcons]; simp
      | succ j =>
          have hj : j < ss.length := by simpa using hi
          have h2 : 2 * (j + 1) = 2 * j + 1 + 1 := by omega
          rw [hcons, h2]
          simp only [List.getD_cons_succ]
          exact ih j hj

theorem wavHeader_r4 (n rate : Nat) (h : 36 + n * 2 < 4294967296) :
    readU32le (wavHeader n rate 1) 4 = 36 + 2 * n := by
  simp [wavHeader, readU32le, u32le, u16le,
    charCodes_RIFF, charCodes_WAVE, charCodes_fmt, charCodes_data]
  omega

theorem wavHeader_r20 (n rate : Nat) : readU16le (wavHeader n rate 1) 20 = 1 := by
  simp [wavHeader, readU16le, u32le, u16le,
    charCodes_RIFF, charCodes_WAVE, charCodes_fmt, charCodes_data]

theorem wavHeader_r22 (n rate : Nat) : readU16le (wavHeader n rate 1) 22 = 1 := by
  simp [wavHeader, readU16le, u32le, u16le,
    charCodes_RIFF, charCodes_WAVE, charCodes_fmt, charCodes_data]

theorem wavHeader_r24 (n rate : Nat) (h : rate < 4294967296) :
    readU32le (wavHeader n rate 1) 24 = rate := by
  simp [wavHeader, readU32le, u32le, u16le,
    charCodes_RIFF, charCodes_WAVE, charCodes_fmt, charCodes_data]
  omega

theorem wavHeader_r28 (n rate : Nat) (h : rate * 2 < 4294967296) :
    readU32le (wavHeader n rate 1) 28 = rate * 2 := by
  simp [wavHeader, readU32le, u32le, u16le,
    charCodes_RIFF, charCodes_WAVE, charCodes_fmt, charCodes_data]
  omega

theorem wavHeader_r32 (n rate : Nat) : readU16le (wavHeader n rate 1) 32 = 2 := by
  simp [wavHeader, readU16le, u32le, u16le,
    charCodes_RIFF, charCodes_WAVE, charCodes_fmt, charCodes_data]

theorem wavHeader_r34 (n rate : Nat) : readU16le (wavHeader n rate 1) 34 = 16 := by
  simp [wavHeader, readU16le, u32le, u16le,
    charCodes_RIFF, charCodes_WAVE, charCodes_fmt, charCodes_data]

theorem wavHeader_r40 (n rate : Nat) (h : n * 2 < 4294967296) :
    readU32le (wavHeader n rate 1) 40 = 2 * n := by
  simp [wavHeader, readU32le, u32le, u16le,
    charCodes_RIFF, charCodes_WAVE, charCodes_fmt, charCodes_data]
  omega

/-- The full functional contract of `encodeWav` for mono input, stated over
the produced byte buffer: overall size, every declared header field, and the
quantized little-endian payload. -/
def EncodeWavContract (samples : List ℚ) (rate : Nat) : Prop :=
  (encodeWav samples rate 1).length = 44 + 2 * samples.length ∧
  readU32le (encodeWav samples rate 1) 4 = 36 + 2 * samples.length ∧
  readU16le (encodeWav samples rate 1) 20 = 1 ∧
  readU16le (encodeWav samples rate 1) 22 = 1 ∧
  readU32le (encodeWav samples rate 1) 24 = rate ∧
  readU32le (encodeWav samples rate 1) 28 = rate * 2 ∧
  readU16le (encodeWav samples rate 1) 32 = 2 ∧
  readU16le (encodeWav samples rate 1) 34 = 16 ∧
  readU32le (encodeWav samples rate 1) 40 = 2 * samples.length ∧
  ∀ i, i < samples.length →
    readU16le (encodeWav samples rate 1) (44 + 2 * i)
      = int16ToU16 (quantize16 (samples.getD i 0))

/-- Claim C1: for every sequence of float samples, positive (32-bit
representable) sample rate and channel count 1, `encodeWav` produces a
buffer of exactly 44 + 2·n bytes whose 44-byte header declares linear PCM
(format tag 1 at offset 20), the given channel count and sample rate, byte
rate = sampleRate·blockAlign, block align = channels·2 = 2, bits-per-sample
= 16 and a data-chunk size of 2·n (zero when n = 0); each sample is clamped
to [-1,1] and quantized to a little-endian signed 16-bit integer, negative
values scaled by 32768 and non-negative values by 32767. -/
theorem claim_C1_wave_encoder (samples : List ℚ) (rate : Nat)
    (hpos : 0 < rate) (hrate : rate * 2 < 4294967296)
    (hn : 36 + samples.length * 2 < 4294967296) :
    EncodeWavContract samples rate := by
  have heq := encodeWav_eq samples rate 1
  have hw44 : (wavHeader samples.length rate 1).length = 44 := wavHeader_length _ _ _
  have hread16 : ∀ k : Nat, k + 1 < 44 →
      readU16le (wavHeader samples.length rate 1 ++ pcmBytes samples) k
        = readU16le (wavHeader samples.length rate 1) k := by
    intro k hk
    unfold readU16le
    rw [getD_append_left' _ _ _ (by rw [hw44]; omega),
        getD_append_left' _ _ _ (by rw [hw44]; omega)]
  have hread32 : ∀ k : Nat, k + 3 < 44 →
      readU32le (wavHeader samples.length rate 1 ++ pcmBytes samples) k
        = readU32le (wavHeader samples.length rate 1) k := by
    intro k hk
    unfold readU32le
    rw [getD_append_left' _ _ _ (by rw [hw44]; omega),
        getD_append_left' _ _ _ (by rw [hw44]; omega),
        getD_append_left' _ _ _ (by rw [hw44]; omega),
        getD_append_left' _ _ _ (by rw [hw44]; omega)]
  unfold EncodeWavContract
  rw [heq]
  refine ⟨?_, ?_, ?_, ?_, ?_, ?_, ?_, ?_, ?_, ?_⟩
  · rw [List.length_append, hw44, pcmBytes_length]
  · rw [hread32 4 (by omega)]
    exact wavHeader_r4 _ _ hn
  · rw [hread16 20 (by omega)]
    exact wavHeader_r20 _ _
  · rw [hread16 22 (by omega)]
    exact wavHeader_r22 _ _
  · rw [hread32 24 (by omega)]
    exact wavHeader_r24 _ _ (by omega)
  · rw [hread32 28 (by omega)]
    exact wavHeader_r28 _ _ hrate
  · rw [hread16 32 (by omega)]
    exact wavHeader_r32 _ _
  · rw [hread16 34 (by omega)]
    exact wavHeader_r34 _ _
  · rw [hread32 40 (by omega)]
    exact wavHeader_r40 _ _ (by omega)
  · intro i hi
    unfold readU16le
    have e1 : (wavHeader samples.length rate 1 ++ pcmBytes samples).getD (44 + 2 * i) 0
        = (pcmBytes samples).getD (2 * i) 0 := by
      rw [getD_append_right' _ _ _ (by rw [hw44]; omega), hw44]
      congr 1
      omega
    have e2 : (wavHeader samples.length rate 1 ++ pcmBytes samples).getD (44 + 2 * i + 1) 0
        = (pcmBytes samples).getD (2 * i + 1) 0 := by
      rw [getD_append_right' _ _ _ (by rw [hw44]; omega), hw44]
      congr 1
      omega
    rw [e1, e2, (pcmBytes_getD samples i hi).1, (pcmBytes_getD samples i hi).2]
    have := int16ToU16_lt (quantize16 (samples.getD i 0))
    omega

/-- Concrete check of claim C1: five samples (one in range, one negative,
two out of range needing clamping, one zero) at 8000 Hz. -/
theorem claim_C1_wave_encoder_witness :
    (0 < 8000 ∧ 8000 * 2 < 4294967296 ∧
      36 + ([(1:ℚ)/2, -3/4, 2, -2, 0]).length * 2 < 4294967296) ∧
    EncodeWavContract [(1:ℚ)/2, -3/4, 2, -2, 0] 8000 :=
  ⟨⟨by decide, by decide, by decide⟩,
    claim_C1_wave_encoder [(1:ℚ)/2, -3/4, 2, -2, 0] 8000
      (by decide) (by decide) (by decide)⟩

/-! ### ConversationStore: `localConversations` over `localStorage`

`localStorage` holds strings; what matters to the store's logic is only the
outcome of `JSON.parse` on each stored value, so a stored value is modelled
by `JsValue`: unparseable text (`corrupt`), a parsed non-object primitive
(`prim`, including `null`), a parsed non-array object (`obj`, carrying the
conversation record when the object is a well-formed one), or a parsed
array (`arr`). `JSON.stringify` of a record followed by `JSON.parse` is the
identity, so `setItem` of a record stores `.obj (some c)`. The index key
(`llmc:index:v1`) and the conversation keys (`llmc:conv:v1:<id>`) live in
disjoint namespaces and are modelled as separate fields of `Store`. -/

structure LoadingFlags where
  clarification : Bool
  stage1 : Bool
  stage2 : Bool
  stage3 : Bool
  deriving DecidableEq, Repr

/-- A message object. A `user` message carries `role` and `content`; an
`assistant` message carries the stage fields (absent fields are `none`). -/
structure Message where
  role : String
  content : Option String
  clarification : Option String
  stage1 : Option String
  stage2 : Option String
  stage3 : Option String
  metadata : Option String
  loading : LoadingFlags
  deriving DecidableEq, Repr

structure Conversation where
  id : Option String
  created_at : Option String
  title : Option String
  messages : List Message
  deriving DecidableEq, Repr

structure IndexEntry where
  id : String
  created_at : String
  title : String
  message_count : Nat
  deriving DecidableEq, Repr

/-- Outcome of `JSON.parse` on a stored string value. -/
inductive JsValue where
  | corrupt : JsValue
  | prim : JsValue
  | obj : Option Conversation → JsValue
  | arr : List IndexEntry → JsValue
  deriving DecidableEq, Repr

structure Store where
  indexVal : Option JsValue
  convs : List (String × JsValue)
  deriving DecidableEq, Repr

def getItem (m : List (String × JsValue)) (k : String) : Option JsValue :=
  (m.find? (fun kv => kv.1 == k)).map (fun kv => kv.2)

def setItem (m : List (String × JsValue)) (k : String) (v : JsValue) :
    List (String × JsValue) :=
  (k, v) :: m.filter (fun kv => !(kv.1 == k))

/-- JavaScript `x || d` for a string `x`. -/
def jsOrStr (s d : String) : String := if s = "" then d else s

/-- JavaScript `x || d` where `x` is a possibly-absent string field. -/
def jsOrOptStr (o : Option String) (d : String) : String :=
  match o with
  | none => d
  | some s => jsOrStr s d

/-- JavaScript falsiness of a possibly-absent string (absent, null or `""`). -/
def jsFalsyOptStr (o : Option String) : Bool :=
  match o with
  | none => true
  | some s => s == ""

/-- Source `getIndex()`: parse the raw index value, fall back to `[]` when
missing or unparseable, and keep it only if it is an array. -/
def getIndex (st : Store) : List IndexEntry :=
  match st.indexVal with
  | some (.arr l) => l
  | _ => []

/-- Source `setIndex(index)`. -/
def setIndexStore (st : Store) (l : List IndexEntry) : Store :=
  { st with indexVal := some (.arr l) }

/-- The comparator `(a, b) => String(b.created_at).localeCompare(String(a.created_at))`
sorts the index descending by `created_at`; string collation is modelled by
the lexicographic order on `String`. `Array.prototype.sort` is stable, so it
is modelled by `mergeSort`. -/
def idxLe (a b : IndexEntry) : Bool := decide (b.created_at ≤ a.created_at)

/-- Source `upsertIndexItem(item)`: re-derive the entry (title defaulting),
replace the first entry with the same id or prepend, sort newest-first,
persist and return the index. -/
def upsertIndexItem (st : Store) (item : IndexEntry) : List IndexEntry × Store :=
  let index := getIndex st
  let nextItem : IndexEntry :=
    ⟨item.id, item.created_at, jsOrStr item.title "New Conversation", item.message_count⟩
  let index2 :=
    match index.findIdx? (fun c => c.id == item.id) with
    | some k => index.set k nextItem
    | none => nextItem :: index
  let sorted := index2.mergeSort idxLe
  (sorted, setIndexStore st sorted)

/-- What `localConversations.get` hands back when the stored payload parses
to an object: the well-formed record, or some other object/array. -/
inductive ConvObj where
  | record : Conversation → ConvObj
  | malformed : ConvObj
  deriving DecidableEq, Repr

inductive SaveErr where
  | missingId : SaveErr
  deriving DecidableEq, Repr

namespace localConversations

/-- Source `localConversations.list()`. -/
def list (st : Store) : List IndexEntry := getIndex st

/-- Source `localConversations.get(id)`: `null` when nothing is stored, the
payload is unparseable (`safeJsonParse` fallback `null`), or the parsed
value is not an object; otherwise the parsed object is returned as-is
(`conv && typeof conv === 'object'`), whether or not it is a record. -/
def get (st : Store) (id : String) : Option ConvObj :=
  match getItem st.convs id with
  | none => none
  | some .corrupt => none
  | some .prim => none
  | some (.obj none) => some .malformed
  | some (.obj (some c)) => some (.record c)
  | some (.arr _) => some .malformed

/-- Source `localConversations.save(conversation)`; `nowIso()` is passed in
as `now`. `conversation.messages` is modelled as a list, so the
`Array.isArray` guard always takes the array branch. -/
def save (st : Store) (now : String) (c : Conversation) :
    Except SaveErr (List IndexEntry × Store) :=
  if jsFalsyOptStr c.id then .error .missingId
  else
    let i := c.id.getD ""
    let st1 : Store := { st with convs := setItem st.convs i (.obj (some c)) }
    let item : IndexEntry :=
      ⟨i, jsOrOptStr c.created_at now, jsOrOptStr c.title "New Conversation",
        c.messages.length⟩
    let r := upsertIndexItem st1 item
    .ok r

end localConversations

theorem getIndex_setItem (st : Store) (m : List (String × JsValue)) :
    getIndex { st with convs := m } = getIndex st := rfl

theorem getItem_setItem_self (m : List (String × JsValue)) (k : String) (v : JsValue) :
    getItem (setItem m k v) k = some v := by
  simp [getItem, setItem, List.find?]

/-- The replace-or-prepend step of `upsertIndexItem`: when at most one entry
carries the item's id, the result is a permutation of the item followed by
every entry with a different id. -/
theorem upsert_core_perm (e : IndexEntry) :
    ∀ l : List IndexEntry, l.countP (fun x => x.id == e.id) ≤ 1 →
      (match l.findIdx? (fun c : IndexEntry => c.id == e.id) with
       | some k => l.set k e
       | none => e :: l).Perm
        (e :: l.filter (fun x => !(x.id == e.id))) := by
  intro l
  induction l with
  | nil => intro _; simp
  | cons a l ih =>
      intro h
      by_cases ha : a.id = e.id
      · have hcount : l.countP (fun x => x.id == e.id) = 0 := by
          rw [List.countP_cons_of_pos _ _ (by simp [ha])] at h
          omega
        have hfilter : l.filter (fun x => !(x.id == e.id)) = l := by
          rw [List.filter_eq_self]
          intro x hx
          have := (List.countP_eq_zero.mp hcount) x hx
          simpa using this
        simp [List.findIdx?_cons, ha, hfilter]
      · have hcount : l.countP (fun x => x.id == e.id) ≤ 1 := by
          rwa [List.countP_cons_of_neg _ _ (by simp [ha])] at h
        have ihh := ih hcount
        cases hfind : l.findIdx? (fun c : IndexEntry => c.id == e.id) with
        | none =>
            have hall := List.findIdx?_eq_none_iff.mp hfind
            have hfilter : l.filter (fun x => !(x.id == e.id)) = l := by
              rw [List.filter_eq_self]
              intro x hx
              simp [hall x hx]
            simp [List.findIdx?_cons, ha, List.findIdx?_succ, hfind, hfilter]
        | some k =>
            rw [hfind] at ihh
            have ihh' : (l.set k e).Perm
                (e :: l.filter (fun x => !(x.id == e.id))) := ihh
            have hgoal : (a :: l).findIdx? (fun c : IndexEntry => c.id == e.id) = some (k + 1) := by
              simp [List.findIdx?_cons, ha, List.findIdx?_succ, hfind]
            rw [hgoal]
            have hfa : (!(a.id == e.id)) = true := by simp [ha]
            have hfc : (a :: l).filter (fun x => !(x.id == e.id))
                = a :: l.filter (fun x => !(x.id == e.id)) := by
              simp [List.filter_cons, hfa]
            rw [hfc]
            show ((a :: l).set (k + 1) e).Perm _
            rw [List.set_cons_succ]
            exact (ihh'.cons a).trans (List.Perm.swap e a _)

theorem idxLe_trans : ∀ a b c : IndexEntry, idxLe a b → idxLe b c → idxLe a c := by
  intro a b c h1 h2
  simp only [idxLe, decide_eq_true_eq] at *
  exact le_trans h2 h1

theorem idxLe_total : ∀ a b : IndexEntry, idxLe a b || idxLe b a := by
  intro a b
  simp only [idxLe]
  rcases le_total a.created_at b.created_at with h | h <;> simp [h]

theorem upsertIndexItem_perm (st : Store) (item : IndexEntry)
    (h : (getIndex st).countP (fun x => x.id == item.id) ≤ 1) :
    ((upsertIndexItem st item).1).Perm
      ((⟨item.id, item.created_at, jsOrStr item.title "New Conversation",
          item.message_count⟩ : IndexEntry) ::
        (getIndex st).filter (fun x => !(x.id == item.id))) := by
  have hcore := upsert_core_perm
    ⟨item.id, item.created_at, jsOrStr item.title "New Conversation", item.message_count⟩
    (getIndex st) (by simpa using h)
  unfold upsertIndexItem
  exact (List.mergeSort_perm _ idxLe).trans (by simpa using hcore)

theorem upsertIndexItem_sorted (st : Store) (item : IndexEntry) :
    ((upsertIndexItem st item).1).Sorted
      (fun a b : IndexEntry => b.created_at ≤ a.created_at) := by
  unfold upsertIndexItem
  have hp := @List.sorted_mergeSort IndexEntry idxLe idxLe_trans idxLe_total
    (match (getIndex st).findIdx? (fun c : IndexEntry => c.id == item.id) with
     | some k => (getIndex st).set k
         ⟨item.id, item.created_at, jsOrStr item.title "New Conversation", item.message_count⟩
     | none =>
         (⟨item.id, item.created_at, jsOrStr item.title "New Conversation",
            item.message_count⟩ : IndexEntry) :: getIndex st)
  refine List.Pairwise.imp ?_ hp
  intro a b hab
  simpa [idxLe] using hab

theorem upsertIndexItem_store (st : Store) (item : IndexEntry) :
    (upsertIndexItem st item).2 = setIndexStore st (upsertIndexItem st item).1 := rfl

theorem jsOrStr_idem (o : Option String) (d : String) (hd : d ≠ "") :
    jsOrStr (jsOrOptStr o d) d = jsOrOptStr o d := by
  cases o with
  | none => simp [jsOrOptStr, jsOrStr, hd]
  | some s => by_cases hs : s = "" <;> simp [jsOrOptStr, jsOrStr, hs, hd]

theorem save_success (st : Store) (now : String) (c : Conversation) (i : String)
    (hi : c.id = some i) (hne : i ≠ "") :
    localConversations.save st now c =
      .ok (upsertIndexItem { st with convs := setItem st.convs i (.obj (some c)) }
        ⟨i, jsOrOptStr c.created_at now, jsOrOptStr c.title "New Conversation",
          c.messages.length⟩) := by
  simp [localConversations.save, jsFalsyOptStr, hi, hne]

/-- Claim C6 (amended): `save` fails with the missing-identifer error exactly
when `conversation.id` is absent **or the empty string** (JavaScript
`!conversation?.id` is also true for `""`); otherwise it persists the full
record under the conversation key, derives the record's index entry (title
defaulting to "New Conversation" when empty or absent, `message_count` equal
to `messages.length`), upserts it into the index (replacing the entry with
the same id, else inserting), re-sorts the whole index by `created_at`
descending, persists the refreshed index and returns it. -/
theorem claim_C6_save (st : Store) (now : String) (c : Conversation) :
    (localConversations.save st now c = .error .missingId ↔
      (c.id = none ∨ c.id = some "")) ∧
    (∀ i, c.id = some i → i ≠ "" →
      (getIndex st).countP (fun x => x.id == i) ≤ 1 →
      ∃ idx st2,
        localConversations.save st now c = .ok (idx, st2) ∧
        localConversations.get st2 i = some (.record c) ∧
        st2.indexVal = some (.arr idx) ∧
        idx.Perm
          ((⟨i, jsOrOptStr c.created_at now, jsOrOptStr c.title "New Conversation",
              c.messages.length⟩ : IndexEntry) ::
            (localConversations.list st).filter (fun x => !(x.id == i))) ∧
        idx.Sorted (fun a b : IndexEntry => b.created_at ≤ a.created_at)) := by
  constructor
  · cases hc : c.id with
    | none => simp [localConversations.save, jsFalsyOptStr, hc]
    | some s =>
        by_cases hs : s = ""
        · subst hs
          simp [localConversations.save, jsFalsyOptStr, hc]
        · simp [localConversations.save, jsFalsyOptStr, hc, hs]
  · intro i hi hne hcnt
    have hsv := save_success st now c i hi hne
    refine ⟨(upsertIndexItem { st with convs := setItem st.convs i (.obj (some c)) }
        ⟨i, jsOrOptStr c.created_at now, jsOrOptStr c.title "New Conversation",
          c.messages.length⟩).1,
      (upsertIndexItem { st with convs := setItem st.convs i (.obj (some c)) }
        ⟨i, jsOrOptStr c.created_at now, jsOrOptStr c.title "New Conversation",
          c.messages.length⟩).2, ?_, ?_, ?_, ?_, ?_⟩
    · exact hsv
    · rw [upsertIndexItem_store]
      simp [localConversations.get, setIndexStore, getItem_setItem_self]
    · rw [upsertIndexItem_store]
      rfl
    · have hcnt1 : (getIndex { st with convs := setItem st.convs i (.obj (some c)) }).countP
          (fun x => x.id == i) ≤ 1 := by
        rw [getIndex_setItem]
        exact hcnt
      have hperm := upsertIndexItem_perm
        { st with convs := setItem st.convs i (.obj (some c)) }
        ⟨i, jsOrOptStr c.created_at now, jsOrOptStr c.title "New Conversation",
          c.messages.length⟩ hcnt1
      rw [getIndex_setItem] at hperm
      have hentry : (⟨i, jsOrOptStr c.created_at now,
          jsOrStr (jsOrOptStr c.title "New Conversation") "New Conversation",
          c.messages.length⟩ : IndexEntry)
          = ⟨i, jsOrOptStr c.created_at now, jsOrOptStr c.title "New Conversation",
              c.messages.length⟩ := by
        rw [jsOrStr_idem c.title "New Conversation" (by decide)]
      simpa [localConversations.list, hentry] using hperm
    · exact upsertIndexItem_sorted _ _

/-- Counterexample to claim C6 as stated: a conversation whose id is present
but empty still fails, so "fails exactly when the id is absent" is false. -/
theorem claim_C6_counterexample :
    localConversations.save ⟨none, []⟩ "2024-01-01T00:00:00.000Z"
        ⟨some "", some "2024-01-01T00:00:00.000Z", some "t", []⟩
      = .error .missingId ∧
    (some "" : Option String) ≠ none := by
  constructor
  · rfl
  · simp

/-- Concrete run of the amended claim C6 on a store whose index already
holds an entry with the same id and one with a different id. -/
theorem claim_C6_save_witness :
    ∃ idx st2,
      localConversations.save
          ⟨some (.arr [⟨"a", "2024-01-02", "Old", 1⟩, ⟨"b", "2024-01-05", "Keep", 2⟩]),
            [("a", .obj (some ⟨some "a", some "2024-01-02", some "Old", []⟩))]⟩
          "2024-01-03"
          ⟨some "a", some "2024-01-02", some "", [⟨"user", some "hi", none, none, none, none,
            none, ⟨false, false, false, false⟩⟩]⟩
        = .ok (idx, st2) ∧
      localConversations.get st2 "a"
        = some (.record ⟨some "a", some "2024-01-02", some "", [⟨"user", some "hi", none, none,
            none, none, none, ⟨false, false, false, false⟩⟩]⟩) ∧
      st2.indexVal = some (.arr idx) ∧
      idx.Perm
        ((⟨"a", "2024-01-02", "New Conversation", 1⟩ : IndexEntry) ::
          (localConversations.list
            ⟨some (.arr [⟨"a", "2024-01-02", "Old", 1⟩, ⟨"b", "2024-01-05", "Keep", 2⟩]),
              [("a", .obj (some ⟨some "a", some "2024-01-02", some "Old", []⟩))]⟩).filter
            (fun x => !(x.id == "a"))) ∧
      idx.Sorted (fun a b : IndexEntry => b.created_at ≤ a.created_at) :=
  (claim_C6_save
    ⟨some (.arr [⟨"a", "2024-01-02", "Old", 1⟩, ⟨"b", "2024-01-05", "Keep", 2⟩]),
      [("a", .obj (some ⟨some "a", some "2024-01-02", some "Old", []⟩))]⟩
    "2024-01-03"
    ⟨some "a", some "2024-01-02", some "", [⟨"user", some "hi", none, none, none, none,
      none, ⟨false, false, false, false⟩⟩]⟩).2
    "a" rfl (by decide) (by decide)

/-- Claim C7 (amended): `list()` is total and returns the empty sequence
whenever the underlying index value is missing, unparseable, or parseable
but not an array; `get(id)` returns absent when nothing is stored under the
id, the payload is unparseable, or it parses to a non-object primitive — but
a payload that parses to an object (or array) is returned as-is even when it
is not a well-formed conversation record. -/
theorem claim_C7_list_get (st : Store) (id : String) :
    ((st.indexVal = none ∨ st.indexVal = some .corrupt ∨ st.indexVal = some .prim ∨
        (∃ o, st.indexVal = some (.obj o))) → localConversations.list st = []) ∧
    (localConversations.get st id = none ↔
      (getItem st.convs id = none ∨ getItem st.convs id = some .corrupt ∨
        getItem st.convs id = some .prim)) ∧
    (∀ c, getItem st.convs id = some (.obj (some c)) →
      localConversations.get st id = some (.record c)) := by
  refine ⟨?_, ?_, ?_⟩
  · rintro (h | h | h | ⟨o, h⟩) <;> simp [localConversations.list, getIndex, h]
  · cases hv : getItem st.convs id with
    | none => simp [localConversations.get, hv]
    | some v =>
        cases v with
        | corrupt => simp [localConversations.get, hv]
        | prim => simp [localConversations.get, hv]
        | obj o => cases o <;> simp [localConversations.get, hv]
        | arr l => simp [localConversations.get, hv]
  · intro c hc
    simp [localConversations.get, hc]

/-- Counterexample to claim C7 as stated: a stored payload that parses to an
object which is not a well-formed conversation record (e.g. `"{}"`) is
returned by `get`, not degraded to absent. -/
theorem claim_C7_counterexample :
    localConversations.get ⟨none, [("x", .obj none)]⟩ "x" = some .malformed ∧
    localConversations.get ⟨none, [("x", .obj none)]⟩ "x" ≠ none :=
  ⟨rfl, by decide⟩

/-- Concrete run of the amended claim C7: a corrupt index value lists as
empty, and a well-formed stored record is returned by `get`. -/
theorem claim_C7_witness :
    localConversations.list
        ⟨some .corrupt, [("y", .obj (some ⟨some "y", none, none, []⟩))]⟩ = [] ∧
    localConversations.get
        ⟨some .corrupt, [("y", .obj (some ⟨some "y", none, none, []⟩))]⟩ "y"
      = some (.record ⟨some "y", none, none, []⟩) :=
  ⟨(claim_C7_list_get ⟨some .corrupt, [("y", .obj (some ⟨some "y", none, none, []⟩))]⟩ "y").1
      (Or.inr (Or.inl rfl)),
   (claim_C7_list_get ⟨some .corrupt, [("y", .obj (some ⟨some "y", none, none, []⟩))]⟩ "y").2.2
      ⟨some "y", none, none, []⟩ (by decide)⟩

/-! ### The SSE reader loop of `api.sendMessageStream`

Each decoded chunk is split on newlines (`chunk.split('\n')`); a line
starting with `"data: "` has its remainder (`line.slice(6)`) passed to
`JSON.parse` (modelled as an abstract partial function `parse`) and, when
parsing succeeds, the event is handed to `onEvent`; a parse failure is
logged and skipped without aborting the loop.

The JavaScript string operations are given their usual character-list
semantics (`split`, `startsWith`, `slice` over the code units of the line),
so that they evaluate on concrete inputs. -/

/-- `s.split(c)` on the character list of `s`. -/
def splitChars (c : Char) : List Char → List (List Char)
  | [] => [[]]
  | a :: rest =>
      let r := splitChars c rest
      if a = c then [] :: r
      else
        match r with
        | [] => [[a]]
        | g :: gs => (a :: g) :: gs

/-- `chunk.split('\n')`. -/
def splitNewlines (s : String) : List String :=
  (splitChars (Char.ofNat 10) s.data).map (fun l => ⟨l⟩)

/-- `line.startsWith('data: ')`. -/
def isDataLine (line : String) : Bool := decide (line.data.take 6 = "data: ".data)

/-- `line.slice(6)`. -/
def lineTail (line : String) : String := ⟨line.data.drop 6⟩

/-- The events delivered for one decoded chunk, in order. -/
def processChunk {α : Type} (parse : String → Option α) (chunk : String) : List α :=
  (splitNewlines chunk).filterMap (fun line =>
    if isDataLine line then parse (lineTail line) else none)

/-- The events delivered over the whole stream of chunks, in order. -/
def deliveredEvents {α : Type} (parse : String → Option α) (chunks : List String) : List α :=
  (chunks.map (processChunk parse)).flatten

/-- All lines of the stream, in the order they appear. -/
def streamLines (chunks : List String) : List String :=
  (chunks.map splitNewlines).flatten

/-- The events delivered for a sequence of lines, in order. -/
def deliveredFromLines {α : Type} (parse : String → Option α) (lines : List String) : List α :=
  lines.filterMap (fun line =>
    if isDataLine line then parse (lineTail line) else none)

theorem deliveredFromLines_append {α : Type} (parse : String → Option α)
    (xs ys : List String) :
    deliveredFromLines parse (xs ++ ys)
      = deliveredFromLines parse xs ++ deliveredFromLines parse ys := by
  simp [deliveredFromLines, List.filterMap_append]

/-- Claim C10: only lines beginning with `"data: "` are treated as events; a
data line whose payload fails to parse is skipped without aborting the
stream; every successfully parsed event is delivered in the order its line
appears in the stream. -/
theorem claim_C10_sse_reader {α : Type} (parse : String → Option α) (chunks : List String) :
    deliveredEvents parse chunks = deliveredFromLines parse (streamLines chunks) ∧
    deliveredEvents parse chunks
      = ((streamLines chunks).filter isDataLine).filterMap (fun l => parse (lineTail l)) ∧
    (∀ pre l post, (¬ isDataLine l ∨ parse (lineTail l) = none) →
      deliveredFromLines parse (pre ++ l :: post)
        = deliveredFromLines parse pre ++ deliveredFromLines parse post) ∧
    (∀ pre l post e, isDataLine l → parse (lineTail l) = some e →
      deliveredFromLines parse (pre ++ l :: post)
        = deliveredFromLines parse pre ++ e :: deliveredFromLines parse post) := by
  have hlines : deliveredEvents parse chunks = deliveredFromLines parse (streamLines chunks) := by
    induction chunks with
    | nil => rfl
    | cons c cs ih =>
        have h1 : deliveredEvents parse (c :: cs)
            = processChunk parse c ++ deliveredEvents parse cs := by
          simp [deliveredEvents]
        have h2 : streamLines (c :: cs) = splitNewlines c ++ streamLines cs := by
          simp [streamLines]
        rw [h1, h2, deliveredFromLines_append, ih]
        rfl
  refine ⟨hlines, ?_, ?_, ?_⟩
  · rw [hlines]
    generalize streamLines chunks = ls
    induction ls with
    | nil => rfl
    | cons l ls ih =>
        by_cases hl : isDataLine l
        · rw [List.filter_cons]
          simp only [hl, if_true]
          cases hp : parse (lineTail l) <;>
            simp [deliveredFromLines, List.filterMap_cons, hl, hp] <;>
            simpa [deliveredFromLines] using ih
        · rw [List.filter_cons]
          simp only [hl, if_false, Bool.false_eq_true]
          simp only [deliveredFromLines, List.filterMap_cons, hl, if_false, Bool.false_eq_true]
          simpa [deliveredFromLines] using ih
  · intro pre l post h
    rw [deliveredFromLines_append]
    have hl : deliveredFromLines parse (l :: post) = deliveredFromLines parse post := by
      rcases h with h | h
      · simp [deliveredFromLines, List.filterMap_cons, h]
      · simp [deliveredFromLines, List.filterMap_cons, h]
    rw [hl]
  · intro pre l post e hl hp
    rw [deliveredFromLines_append]
    have hc : deliveredFromLines parse (l :: post) = e :: deliveredFromLines parse post := by
      simp [deliveredFromLines, List.filterMap_cons, hl, hp]
    rw [hc]

/-- A concrete payload parser for exercising the reader. -/
def parseDemo : String → Option Nat :=
  fun s => if s = "1" then some 1 else if s = "2" then some 2 else none

/-- Concrete run of claim C10: a stream with a non-data line and an
unparseable data line delivers exactly the two parseable events in order. -/
theorem claim_C10_sse_reader_witness :
    deliveredEvents parseDemo ["data: 1\nnoise", "data: oops\ndata: 2"]
      = deliveredFromLines parseDemo
          (streamLines ["data: 1\nnoise", "data: oops\ndata: 2"]) ∧
    deliveredFromLines parseDemo (["data: 1"] ++ "noise" :: ["data: 2"])
      = deliveredFromLines parseDemo ["data: 1"]
          ++ deliveredFromLines parseDemo ["data: 2"] ∧
    deliveredEvents parseDemo ["data: 1\nnoise", "data: oops\ndata: 2"] = [1, 2] :=
  ⟨(claim_C10_sse_reader parseDemo ["data: 1\nnoise", "data: oops\ndata: 2"]).1,
   (claim_C10_sse_reader parseDemo ["data: 1\nnoise", "data: oops\ndata: 2"]).2.2.1
      ["data: 1"] "noise" ["data: 2"] (Or.inl (by decide)),
   by decide⟩

/-! ### AudioCapturer: `stopRecording` in ChatInterface

`recordingRef.current` holds the capture session (stream, audio context,
source, processor, accumulated chunks, sampleRate); only the data relevant
to the produced result is modelled. `stopRecording` checks
`if (!isRecording || !recordingRef.current) return;` — a silent return, not
an error — then clears the ref and flag, disconnects the processor and
source, stops the input tracks and closes the context (recorded by the
`released` flag of the outcome), concatenates the accumulated chunks in
arrival order into one buffer and submits it to `encodeWav` as
`{ samples: merged, sampleRate, numChannels: 1 }`. -/

structure CaptureSession where
  chunks : List (List ℚ)
  sampleRate : Nat
  deriving DecidableEq, Repr

structure CaptureState where
  isRecording : Bool
  recordingRef : Option CaptureSession
  deriving DecidableEq, Repr

/-- The `{ samples, sampleRate, numChannels: 1 }` value handed to the
encoder on a successful stop. -/
structure StopResult where
  samples : List ℚ
  sampleRate : Nat
  channelCount : Nat
  deriving DecidableEq, Repr

inductive StopOutcome where
  | noop : StopOutcome
  | stopped : Bool → StopResult → StopOutcome
  deriving DecidableEq, Repr

/-- The merge loop of `stopRecording`: allocate a buffer of the total
length, then `merged.set(c, offset)` for each chunk, advancing the offset. -/
def mergeChunks (chunks : List (List ℚ)) : List ℚ :=
  let totalLength := chunks.foldl (fun sum a => sum + a.length) 0
  let merged := List.replicate totalLength (0 : ℚ)
  (chunks.foldl (fun acc c => (writeAt acc.1 acc.2 c, acc.2 + c.length)) (merged, 0)).1

/-- Source `stopRecording`; the Boolean of `.stopped` records that the
processing graph and input device were released on this path. -/
def stopRecording (st : CaptureState) : CaptureState × StopOutcome :=
  if !st.isRecording || st.recordingRef.isNone then (st, .noop)
  else
    match st.recordingRef with
    | none => (st, .noop)
    | some s =>
        (⟨false, none⟩, .stopped true ⟨mergeChunks s.chunks, s.sampleRate, 1⟩)

theorem mergeFold (chunks : List (List ℚ)) :
    ∀ (done rest : List ℚ), rest.length = (chunks.map List.length).sum →
      (chunks.foldl (fun acc c => (writeAt acc.1 acc.2 c, acc.2 + c.length))
        (done ++ rest, done.length)).1 = done ++ chunks.flatten := by
  induction chunks with
  | nil =>
      intro done rest h
      simp only [List.map_nil, List.sum_nil, List.length_eq_zero] at h
      simp [h]
  | cons c cs ih =>
      intro done rest h
      simp only [List.map_cons, List.sum_cons] at h
      have hc : c.length ≤ rest.length := by omega
      simp only [List.foldl_cons]
      rw [writeAt_chunk done rest c done.length rfl hc]
      have hlen : done.length + c.length = (done ++ c).length := by simp
      have hrest : (rest.drop c.length).length = (cs.map List.length).sum := by
        simp
        omega
      rw [hlen, ih (done ++ c) (rest.drop c.length) hrest]
      simp [List.append_assoc]

theorem foldl_length_sum (chunks : List (List ℚ)) :
    ∀ n : Nat, chunks.foldl (fun sum a => sum + a.length) n = n + (chunks.map List.length).sum := by
  induction chunks with
  | nil => intro n; simp
  | cons c cs ih =>
      intro n
      simp only [List.foldl_cons, List.map_cons, List.sum_cons, ih]
      omega

/-- The merge loop concatenates all accumulated chunks in arrival order. -/
theorem mergeChunks_eq (chunks : List (List ℚ)) : mergeChunks chunks = chunks.flatten := by
  unfold mergeChunks
  have htot : chunks.foldl (fun sum a => sum + a.length) 0 = (chunks.map List.length).sum := by
    simpa using foldl_length_sum chunks 0
  rw [htot]
  have := mergeFold chunks [] (List.replicate ((chunks.map List.length).sum) 0) (by simp)
  simpa using this

/-- Claim C9 (amended): when the capturer is not currently recording (or the
session ref is empty) `stopRecording` silently returns without effect — it
does not fail with any error; when it is recording, it clears the session
state, releases the audio-processing graph and input device, and produces
the concatenation of all accumulated sample blocks in arrival order together
with the session's sampleRate and channelCount 1. -/
theorem claim_C9_stop (st : CaptureState) :
    ((st.isRecording = false ∨ st.recordingRef = none) → stopRecording st = (st, .noop)) ∧
    (∀ s, st.isRecording = true → st.recordingRef = some s →
      stopRecording st = (⟨false, none⟩, .stopped true ⟨s.chunks.flatten, s.sampleRate, 1⟩)) := by
  constructor
  · rintro (h | h) <;> simp [stopRecording, h]
  · intro s h1 h2
    simp [stopRecording, h1, h2, mergeChunks_eq]

/-- Counterexample to claim C9 as stated: with an accumulated session but
`isRecording = false`, `stop()` does not fail with `NoActiveSessionError` —
it silently returns, leaving the state untouched and producing no outcome. -/
theorem claim_C9_counterexample :
    stopRecording ⟨false, some ⟨[[1/2]], 48000⟩⟩
      = (⟨false, some ⟨[[1/2]], 48000⟩⟩, .noop) := rfl

/-- Concrete run of the amended claim C9: two accumulated blocks are
concatenated in arrival order at the session's sample rate, mono. -/
theorem claim_C9_stop_witness :
    stopRecording ⟨true, some ⟨[[1/2, -1/2], [1/4]], 44100⟩⟩
      = (⟨false, none⟩, .stopped true ⟨[1/2, -1/2, 1/4], 44100, 1⟩) :=
  (claim_C9_stop ⟨true, some ⟨[[1/2, -1/2], [1/4]], 44100⟩⟩).2
    ⟨[[1/2, -1/2], [1/4]], 44100⟩ rfl rfl

/-! ### App: `handleSendMessage`, the stream event handlers and rollback

React state is modelled by `AppState`. An event handler invocation reads
the render-time snapshot of the `useState` values it closes over
(`Snapshot`), while `set*` calls and functional updaters act on the live
state, threaded sequentially (execution is single-threaded and stream
events are processed strictly in order; functional updaters such as
`setCurrentConversation(prev => ...)` always see the latest queued value,
which the sequential threading captures). `nowIso()` is the `now` field.

Stage payloads (`event.data`, `event.metadata`) are opaque to the handlers
and modelled as strings. -/

inductive StreamEvent where
  | clarificationStart : StreamEvent
  | clarificationNeeded : String → StreamEvent
  | clarificationComplete : StreamEvent
  | stage1Start : StreamEvent
  | stage1Complete : String → StreamEvent
  | stage2Start : StreamEvent
  | stage2Complete : String → Option String → StreamEvent
  | stage3Start : StreamEvent
  | stage3Complete : String → StreamEvent
  | titleComplete : Option String → StreamEvent
  | complete : StreamEvent
  | errorEvent : String → StreamEvent
  | unknown : String → StreamEvent
  deriving DecidableEq, Repr

structure AppState where
  conversations : List IndexEntry
  currentConversationId : Option String
  currentConversation : Option Conversation
  isLoading : Bool
  councilModels : List String
  chairmanModel : Option String
  pendingClarification : Option String
  originalQuery : Option String
  store : Store
  now : String
  deriving DecidableEq, Repr

/-- The body of the streaming request built by `api.sendMessageStream`. -/
structure Request where
  content : String
  chairman_model : Option String
  council_models : List String
  skip_clarification : Bool
  is_first_message : Bool
  deriving DecidableEq, Repr

/-- The render snapshot an event handler's closure reads. -/
structure Snapshot where
  currentConversationId : Option String
  currentConversation : Option Conversation
  pendingClarification : Option String
  originalQuery : Option String
  deriving DecidableEq, Repr

def snapOf (st : AppState) : Snapshot :=
  ⟨st.currentConversationId, st.currentConversation, st.pendingClarification, st.originalQuery⟩

def jsTruthyOptStr (o : Option String) : Bool := !(jsFalsyOptStr o)

/-- `localConversations.save(next)` inside an updater. If the conversation's
id were falsy the source would throw inside the updater; every claim below
is stated for conversations with a valid id, where `save` succeeds, so the
error branch (unreachable under those hypotheses) keeps the store. -/
def doSave (st : AppState) (c : Conversation) : AppState :=
  match localConversations.save st.store st.now c with
  | .ok r => { st with store := r.2 }
  | .error _ => st

/-- `setConversations(localConversations.list())`. -/
def refreshList (st : AppState) : AppState :=
  { st with conversations := localConversations.list st.store }

/-- Mutating `messages[messages.length - 1]` in a copied array. On an empty
list the source would throw (`undefined` property write); mid-turn this is
unreachable, and the model keeps the list. -/
def updateLast (f : Message → Message) : List Message → List Message
  | [] => []
  | [m] => [f m]
  | m :: rest => m :: updateLast f rest

/-- The functional-updater pattern of every stage handler: copy
`prev.messages`, mutate the last message, `localConversations.save(next)`,
return `next`. -/
def updateLastMsg (st : AppState) (f : Message → Message) : AppState :=
  match st.currentConversation with
  | none => st
  | some prev =>
      let next := { prev with messages := updateLast f prev.messages }
      let st1 := doSave st next
      { st1 with currentConversation := some next }

/-- `event.data?.title || prev.title`. -/
def jsTitleOr (t : Option String) (prev : Option String) : Option String :=
  match t with
  | none => prev
  | some s => if s = "" then prev else some s

/-- The `onEvent` switch of `handleSendMessage` (App, local-storage build). -/
def applyStreamEvent (st : AppState) (ev : StreamEvent) : AppState :=
  match ev with
  | .clarificationStart =>
      updateLastMsg st (fun m =>
        { m with loading := { m.loading with clarification := true } })
  | .clarificationNeeded d =>
      let st1 := updateLastMsg st (fun m =>
        { m with clarification := some d,
                 loading := { m.loading with clarification := false } })
      { st1 with pendingClarification := some d, isLoading := false }
  | .clarificationComplete =>
      updateLastMsg st (fun m =>
        { m with loading := { m.loading with clarification := false } })
  | .stage1Start =>
      updateLastMsg st (fun m =>
        { m with loading := { m.loading with stage1 := true } })
  | .stage1Complete d =>
      updateLastMsg st (fun m =>
        { m with stage1 := some d, loading := { m.loading with stage1 := false } })
  | .stage2Start =>
      updateLastMsg st (fun m =>
        { m with loading := { m.loading with stage2 := true } })
  | .stage2Complete d md =>
      updateLastMsg st (fun m =>
        { m with stage2 := some d, metadata := md,
                 loading := { m.loading with stage2 := false } })
  | .stage3Start =>
      updateLastMsg st (fun m =>
        { m with loading := { m.loading with stage3 := true } })
  | .stage3Complete d =>
      updateLastMsg st (fun m =>
        { m with stage3 := some d, loading := { m.loading with stage3 := false } })
  | .titleComplete t =>
      match st.currentConversation with
      | none => st
      | some prev =>
          let next := { prev with title := jsTitleOr t prev.title }
          let st1 := doSave st next
          refreshList { st1 with currentConversation := some next }
  | .complete =>
      refreshList { st with isLoading := false, originalQuery := none }
  | .errorEvent _ => { st with isLoading := false }
  | .unknown _ => st

def runEvents (st : AppState) (evs : List StreamEvent) : AppState :=
  evs.foldl applyStreamEvent st

def mkUserMessage (content : String) : Message :=
  ⟨"user", some content, none, none, none, none, none, ⟨false, false, false, false⟩⟩

/-- The partial assistant message appended before streaming starts. -/
def assistantPlaceholder : Message :=
  ⟨"assistant", none, none, none, none, none, none, ⟨false, false, false, false⟩⟩

/-- The optimistic-append updater: `next = { ...prev, messages: [...] }`,
`localConversations.save(next)`, `setConversations(localConversations.list())`. -/
def appendMessage (st : AppState) (msg : Message) : AppState :=
  match st.currentConversation with
  | none => st
  | some prev =>
      let next := { prev with messages := prev.messages ++ [msg] }
      let st1 := doSave st next
      refreshList { st1 with currentConversation := some next }

/-- The catch handler: drop the two optimistic messages (`slice(0, -2)`),
persist, refresh the listing, stop loading. -/
def rollbackTurn (st : AppState) : AppState :=
  let st1 :=
    match st.currentConversation with
    | none => st
    | some prev =>
        let next := { prev with
          messages := prev.messages.take (prev.messages.length - 2) }
        let st2 := doSave st next
        refreshList { st2 with currentConversation := some next }
  { st1 with isLoading := false }

/-- Source `handleSendMessage(content, skipClarification)`. `snap` is the
render snapshot the closure reads; `st0` is the live state acted on by
`set*` calls and functional updaters — for a direct user-initiated send the
two coincide (`sendMessageTop`), but a nested same-render call
(`handleSkipClarification`) passes a stale snapshot. `events` are the stream
events delivered in order by the transport; `transportFails` tells whether
the transport throws (after delivering those events), triggering the catch. -/
def handleSendMessage (snap : Snapshot) (st0 : AppState) (content : String)
    (skipClarification : Bool) (events : List StreamEvent) (transportFails : Bool) :
    AppState × Option Request :=
  if jsFalsyOptStr snap.currentConversationId then (st0, none)
  else
    match snap.currentConversation with
    | none => (st0, none)
    | some snapConv =>
        let st1 := { st0 with isLoading := true }
        let isFirstMessage := snapConv.messages.length == 0
        let useClar := snap.pendingClarification.isSome && jsTruthyOptStr snap.originalQuery
        let finalContent :=
          if useClar then
            (snap.originalQuery.getD "") ++ "\n\nAdditional context: " ++ content
          else content
        let skip := if useClar then true else skipClarification
        let st2 :=
          if useClar then
            { st1 with pendingClarification := none, originalQuery := none }
          else { st1 with originalQuery := some content }
        let st3 := appendMessage st2 (mkUserMessage content)
        let st4 := appendMessage st3 assistantPlaceholder
        let req : Request :=
          ⟨finalContent, st0.chairmanModel, st0.councilModels, skip, isFirstMessage⟩
        let st5 := runEvents st4 events
        if transportFails then (rollbackTurn st5, some req) else (st5, some req)

/-- A user-initiated send: the handler's snapshot is the live state. -/
def sendMessageTop (st : AppState) (content : String) (skipClarification : Bool)
    (events : List StreamEvent) (transportFails : Bool) : AppState × Option Request :=
  handleSendMessage (snapOf st) st content skipClarification events transportFails

/-- Source `handleSkipClarification`: reads `originalQuery` from the render
snapshot, queues `setPendingClarification(null)` (affecting only the live
state), then invokes the same render's `handleSendMessage` closure — whose
captured `pendingClarification` and `originalQuery` are still the snapshot
values. -/
def handleSkipClarification (st : AppState) (events : List StreamEvent)
    (transportFails : Bool) : AppState × Option Request :=
  if jsTruthyOptStr st.originalQuery then
    handleSendMessage (snapOf st) { st with pendingClarification := none }
      (st.originalQuery.getD "") true events transportFails
  else (st, none)

/-! ### Field footprints of the stream event handlers -/

inductive MsgField where
  | role : MsgField
  | content : MsgField
  | clarification : MsgField
  | stage1 : MsgField
  | stage2 : MsgField
  | stage3 : MsgField
  | metadata : MsgField
  | loadClarification : MsgField
  | loadStage1 : MsgField
  | loadStage2 : MsgField
  | loadStage3 : MsgField
  deriving DecidableEq, Repr

inductive FieldVal where
  | str : String → FieldVal
  | opt : Option String → FieldVal
  | flag : Bool → FieldVal
  deriving DecidableEq, Repr

def Message.getField (m : Message) : MsgField → FieldVal
  | .role => .str m.role
  | .content => .opt m.content
  | .clarification => .opt m.clarification
  | .stage1 => .opt m.stage1
  | .stage2 => .opt m.stage2
  | .stage3 => .opt m.stage3
  | .metadata => .opt m.metadata
  | .loadClarification => .flag m.loading.clarification
  | .loadStage1 => .flag m.loading.stage1
  | .loadStage2 => .flag m.loading.stage2
  | .loadStage3 => .flag m.loading.stage3

/-- The message fields an event's handler writes. -/
def eventFootprint : StreamEvent → List MsgField
  | .clarificationStart => [.loadClarification]
  | .clarificationNeeded _ => [.clarification, .loadClarification]
  | .clarificationComplete => [.loadClarification]
  | .stage1Start => [.loadStage1]
  | .stage1Complete _ => [.stage1, .loadStage1]
  | .stage2Start => [.loadStage2]
  | .stage2Complete _ _ => [.stage2, .metadata, .loadStage2]
  | .stage3Start => [.loadStage3]
  | .stage3Complete _ => [.stage3, .loadStage3]
  | .titleComplete _ => []
  | .complete => []
  | .errorEvent _ => []
  | .unknown _ => []

theorem updateLast_append_singleton (f : Message → Message) (ms : List Message) (m : Message) :
    updateLast f (ms ++ [m]) = ms ++ [f m] := by
  induction ms with
  | nil => rfl
  | cons a ms ih =>
      cases ms with
      | nil => rfl
      | cons b ms2 =>
          show updateLast f (a :: (b :: ms2 ++ [m])) = _
          have hstep : updateLast f (a :: (b :: ms2 ++ [m]))
              = a :: updateLast f (b :: ms2 ++ [m]) := rfl
          rw [hstep, ih]
          rfl

theorem updateLastMsg_conv (st : AppState) (f : Message → Message) (c : Conversation)
    (h : st.currentConversation = some c) :
    (updateLastMsg st f).currentConversation
      = some { c with messages := updateLast f c.messages } := by
  simp [updateLastMsg, h]

theorem updater_spec (st : AppState) (f : Message → Message) (c : Conversation)
    (ms : List Message) (m : Message) (h1 : st.currentConversation = some c)
    (h2 : c.messages = ms ++ [m]) :
    (updateLastMsg st f).currentConversation = some { c with messages := ms ++ [f m] } := by
  rw [updateLastMsg_conv st f c h1, h2, updateLast_append_singleton]

/-- One stream event: the last (open assistant) message is the only message
touched, the conversation identity survives, and only the event's own
fields of that message change. -/
theorem applyStreamEvent_spec (st : AppState) (ev : StreamEvent) (c : Conversation)
    (ms : List Message) (m : Message) (h1 : st.currentConversation = some c)
    (h2 : c.messages = ms ++ [m]) :
    ∃ c' m', (applyStreamEvent st ev).currentConversation = some c' ∧
      c'.messages = ms ++ [m'] ∧ c'.id = c.id ∧ c'.created_at = c.created_at ∧
      ∀ g : MsgField, g ∉ eventFootprint ev → m'.getField g = m.getField g := by
  cases ev with
  | clarificationStart =>
      refine ⟨_, _, updater_spec st _ c ms m h1 h2, rfl, rfl, rfl, ?_⟩
      intro g hg
      cases g <;> simp [Message.getField, eventFootprint] at hg ⊢
  | clarificationNeeded d =>
      have hc := updater_spec st (fun mm =>
        { mm with clarification := some d,
                  loading := { mm.loading with clarification := false } }) c ms m h1 h2
      have hc2 : (applyStreamEvent st (.clarificationNeeded d)).currentConversation
          = (updateLastMsg st (fun mm =>
              { mm with clarification := some d,
                        loading := { mm.loading with clarification := false } })).currentConversation := rfl
      refine ⟨_, _, hc2.trans hc, rfl, rfl, rfl, ?_⟩
      intro g hg
      cases g <;> simp [Message.getField, eventFootprint] at hg ⊢
  | clarificationComplete =>
      refine ⟨_, _, updater_spec st _ c ms m h1 h2, rfl, rfl, rfl, ?_⟩
      intro g hg
      cases g <;> simp [Message.getField, eventFootprint] at hg ⊢
  | stage1Start =>
      refine ⟨_, _, updater_spec st _ c ms m h1 h2, rfl, rfl, rfl, ?_⟩
      intro g hg
      cases g <;> simp [Message.getField, eventFootprint] at hg ⊢
  | stage1Complete d =>
      refine ⟨_, _, updater_spec st _ c ms m h1 h2, rfl, rfl, rfl, ?_⟩
      intro g hg
      cases g <;> simp [Message.getField, eventFootprint] at hg ⊢
  | stage2Start =>
      refine ⟨_, _, updater_spec st _ c ms m h1 h2, rfl, rfl, rfl, ?_⟩
      intro g hg
      cases g <;> simp [Message.getField, eventFootprint] at hg ⊢
  | stage2Complete d md =>
      refine ⟨_, _, updater_spec st _ c ms m h1 h2, rfl, rfl, rfl, ?_⟩
      intro g hg
      cases g <;> simp [Message.getField, eventFootprint] at hg ⊢
  | stage3Start =>
      refine ⟨_, _, updater_spec st _ c ms m h1 h2, rfl, rfl, rfl, ?_⟩
      intro g hg
      cases g <;> simp [Message.getField, eventFootprint] at hg ⊢
  | stage3Complete d =>
      refine ⟨_, _, updater_spec st _ c ms m h1 h2, rfl, rfl, rfl, ?_⟩
      intro g hg
      cases g <;> simp [Message.getField, eventFootprint] at hg ⊢
  | titleComplete t =>
      refine ⟨{ c with title := jsTitleOr t c.title }, m, ?_, by simpa using h2, rfl, rfl,
        fun g hg => rfl⟩
      simp [applyStreamEvent, h1, refreshList]
  | complete =>
      refine ⟨c, m, ?_, h2, rfl, rfl, fun g hg => rfl⟩
      simp [applyStreamEvent, refreshList, h1]
  | errorEvent msg =>
      refine ⟨c, m, ?_, h2, rfl, rfl, fun g hg => rfl⟩
      simp [applyStreamEvent, h1]
  | unknown t =>
      refine ⟨c, m, ?_, h2, rfl, rfl, fun g hg => rfl⟩
      simp [applyStreamEvent, h1]

theorem doSave_eq (st : AppState) (c : Conversation) :
    ∃ s, doSave st c = { st with store := s } := by
  unfold doSave
  cases localConversations.save st.store st.now c with
  | ok r => exact ⟨r.2, rfl⟩
  | error e => exact ⟨st.store, rfl⟩

/-- When the saved conversation has a valid id, the store resulting from the
in-updater save holds the full record. -/
theorem doSave_get (st : AppState) (c : Conversation) (i : String)
    (hi : c.id = some i) (hne : i ≠ "") :
    localConversations.get (doSave st c).store i = some (.record c) := by
  unfold doSave
  rw [save_success st.store st.now c i hi hne]
  show localConversations.get ((upsertIndexItem _ _).2) i = _
  rw [upsertIndexItem_store]
  simp [localConversations.get, setIndexStore, getItem_setItem_self]

theorem updateLastMsg_pending (st : AppState) (f : Message → Message) :
    (updateLastMsg st f).pendingClarification = st.pendingClarification := by
  unfold updateLastMsg
  cases h : st.currentConversation with
  | none => rfl
  | some prev =>
      obtain ⟨s, hs⟩ := doSave_eq st { prev with messages := updateLast f prev.messages }
      simp [hs]

theorem appendMessage_pending (st : AppState) (msg : Message) :
    (appendMessage st msg).pendingClarification = st.pendingClarification := by
  unfold appendMessage
  cases h : st.currentConversation with
  | none => rfl
  | some prev =>
      obtain ⟨s, hs⟩ := doSave_eq st { prev with messages := prev.messages ++ [msg] }
      simp [hs, refreshList]

theorem rollbackTurn_pending (st : AppState) :
    (rollbackTurn st).pendingClarification = st.pendingClarification := by
  unfold rollbackTurn
  cases h : st.currentConversation with
  | none => rfl
  | some prev =>
      obtain ⟨s, hs⟩ := doSave_eq st
        { prev with messages := prev.messages.take (prev.messages.length - 2) }
      simp [hs, refreshList]

theorem applyStreamEvent_pending (st : AppState) (ev : StreamEvent)
    (h : ∀ d, ev ≠ .clarificationNeeded d) :
    (applyStreamEvent st ev).pendingClarification = st.pendingClarification := by
  cases ev with
  | clarificationStart => exact updateLastMsg_pending st _
  | clarificationNeeded d => exact absurd rfl (h d)
  | clarificationComplete => exact updateLastMsg_pending st _
  | stage1Start => exact updateLastMsg_pending st _
  | stage1Complete d => exact updateLastMsg_pending st _
  | stage2Start => exact updateLastMsg_pending st _
  | stage2Complete d md => exact updateLastMsg_pending st _
  | stage3Start => exact updateLastMsg_pending st _
  | stage3Complete d => exact updateLastMsg_pending st _
  | titleComplete t =>
      show (applyStreamEvent st (.titleComplete t)).pendingClarification = _
      unfold applyStreamEvent
      cases hc : st.currentConversation with
      | none => rfl
      | some prev =>
          obtain ⟨s, hs⟩ := doSave_eq st { prev with title := jsTitleOr t prev.title }
          simp [hs, refreshList]
  | complete => rfl
  | errorEvent msg => rfl
  | unknown t => rfl

theorem runEvents_pending (evs : List StreamEvent) :
    ∀ st : AppState, (∀ d, StreamEvent.clarificationNeeded d ∉ evs) →
      (runEvents st evs).pendingClarification = st.pendingClarification := by
  induction evs with
  | nil => intro st _; rfl
  | cons e evs ih =>
      intro st h
      have he : ∀ d, e ≠ .clarificationNeeded d := by
        intro d hd
        exact h d (by simp [hd])
      have hstep := applyStreamEvent_pending st e he
      have htail := ih (applyStreamEvent st e) (fun d hd => h d (List.mem_cons_of_mem _ hd))
      show (runEvents (applyStreamEvent st e) evs).pendingClarification = _
      rw [htail, hstep]

theorem appendMessage_conv (st : AppState) (msg : Message) (c : Conversation)
    (h : st.currentConversation = some c) :
    (appendMessage st msg).currentConversation
      = some { c with messages := c.messages ++ [msg] } := by
  obtain ⟨s, hs⟩ := doSave_eq st { c with messages := c.messages ++ [msg] }
  simp [appendMessage, h, hs, refreshList]

/-- The guard-passed body of `handleSendMessage` before the appends: set
loading, resolve the clarification branch. -/
def sendPrelude (st : AppState) (content : String) : AppState :=
  if st.pendingClarification.isSome && jsTruthyOptStr st.originalQuery then
    { st with isLoading := true, pendingClarification := none, originalQuery := none }
  else { st with isLoading := true, originalQuery := some content }

/-- The request a guard-passed `sendMessageTop` issues. -/
def mkReq (st : AppState) (content : String) (skip : Bool) (c : Conversation) : Request :=
  if st.pendingClarification.isSome && jsTruthyOptStr st.originalQuery then
    ⟨(st.originalQuery.getD "") ++ "\n\nAdditional context: " ++ content,
     st.chairmanModel, st.councilModels, true, c.messages.length == 0⟩
  else ⟨content, st.chairmanModel, st.councilModels, skip, c.messages.length == 0⟩

theorem sendPrelude_conv (st : AppState) (content : String) :
    (sendPrelude st content).currentConversation = st.currentConversation := by
  unfold sendPrelude
  by_cases h : (st.pendingClarification.isSome && jsTruthyOptStr st.originalQuery) = true <;>
    simp [h]

theorem sendPrelude_pending (st : AppState) (content : String)
    (h : (st.pendingClarification.isSome && jsTruthyOptStr st.originalQuery) = true) :
    (sendPrelude st content).pendingClarification = none := by
  simp [sendPrelude, h]

/-- A guard-passed user-initiated send decomposes into: prelude, the two
optimistic appends, the streamed events, and the rollback on failure. -/
theorem sendMessageTop_eq (st : AppState) (content : String) (skip : Bool)
    (events : List StreamEvent) (fails : Bool) (c : Conversation)
    (hid : jsFalsyOptStr st.currentConversationId = false)
    (hcc : st.currentConversation = some c) :
    sendMessageTop st content skip events fails =
      (if fails then
        rollbackTurn (runEvents
          (appendMessage (appendMessage (sendPrelude st content) (mkUserMessage content))
            assistantPlaceholder) events)
       else runEvents
          (appendMessage (appendMessage (sendPrelude st content) (mkUserMessage content))
            assistantPlaceholder) events,
       some (mkReq st content skip c)) := by
  simp only [sendMessageTop, handleSendMessage, snapOf, hid, hcc]
  by_cases hu : (st.pendingClarification.isSome && jsTruthyOptStr st.originalQuery) = true <;>
    cases fails <;>
      simp [hu, sendPrelude, mkReq] <;>
        rw [hcc]

/-- Running any event sequence never appends, drops or reorders messages:
only the last message evolves, and the conversation identity survives. -/
theorem runEvents_spec (evs : List StreamEvent) :
    ∀ (st : AppState) (c : Conversation) (ms : List Message) (m : Message),
      st.currentConversation = some c → c.messages = ms ++ [m] →
      ∃ c' m', (runEvents st evs).currentConversation = some c' ∧
        c'.messages = ms ++ [m'] ∧ c'.id = c.id ∧ c'.created_at = c.created_at := by
  induction evs with
  | nil => intro st c ms m h1 h2; exact ⟨c, m, h1, h2, rfl, rfl⟩
  | cons e evs ih =>
      intro st c ms m h1 h2
      obtain ⟨c1, m1, ha, hb, hid, hcr, _⟩ := applyStreamEvent_spec st e c ms m h1 h2
      obtain ⟨c', m', ha', hb', hid', hcr'⟩ := ih (applyStreamEvent st e) c1 ms m1 ha hb
      exact ⟨c', m', ha', hb', hid'.trans hid, hcr'.trans hcr⟩

/-- The rollback handler on a conversation whose log is the pre-turn
messages plus the two optimistic ones: the trailing pair is dropped, the
result is persisted, and the conversation identity survives. -/
theorem rollbackTurn_spec (st : AppState) (c : Conversation) (base : List Message)
    (u a : Message) (i : String) (h1 : st.currentConversation = some c)
    (h2 : c.messages = (base ++ [u]) ++ [a]) (hi : c.id = some i) (hne : i ≠ "") :
    (rollbackTurn st).currentConversation = some { c with messages := base } ∧
    localConversations.get (rollbackTurn st).store i
      = some (.record { c with messages := base }) := by
  have htake : c.messages.take (c.messages.length - 2) = base := by
    rw [h2, List.append_assoc]
    have hlen : (base ++ ([u] ++ [a])).length = base.length + 2 := by simp
    rw [hlen]
    have : base.length + 2 - 2 = base.length := by omega
    rw [this]
    exact List.take_left' rfl
  have hnext : ({ c with messages := c.messages.take (c.messages.length - 2) } : Conversation)
      = { c with messages := base } := by rw [htake]
  obtain ⟨s, hs⟩ := doSave_eq st { c with messages := c.messages.take (c.messages.length - 2) }
  constructor
  · show (rollbackTurn st).currentConversation = _
    unfold rollbackTurn
    rw [h1]
    simp only [hs, refreshList]
    rw [hnext]
  · show localConversations.get (rollbackTurn st).store i = _
    unfold rollbackTurn
    rw [h1]
    simp only [htake, refreshList]
    exact doSave_get st { c with messages := base } i (by simpa using hi) hne

/-- Claim C8: for every conversation state and every stream event of the
event vocabulary, the handler writes only that event's own fields of the
last (open assistant) message — the other messages and all fields outside
the event's footprint are unchanged, so applying events out of order never
changes fields belonging to other events. -/
theorem claim_C8_event_frame (st : AppState) (ev : StreamEvent) (c : Conversation)
    (ms : List Message) (m : Message) (h1 : st.currentConversation = some c)
    (h2 : c.messages = ms ++ [m]) :
    ∃ c' m', (applyStreamEvent st ev).currentConversation = some c' ∧
      c'.messages = ms ++ [m'] ∧
      ∀ g : MsgField, g ∉ eventFootprint ev → m'.getField g = m.getField g := by
  obtain ⟨c', m', ha, hb, _, _, hf⟩ := applyStreamEvent_spec st ev c ms m h1 h2
  exact ⟨c', m', ha, hb, hf⟩

/-- An empty, freshly created and persisted conversation. -/
def emptyConv : Conversation :=
  ⟨some "c1", some "2024-05-01T00:00:00.000Z", some "New Conversation", []⟩

def baseStore : Store :=
  ⟨some (.arr [⟨"c1", "2024-05-01T00:00:00.000Z", "New Conversation", 0⟩]),
   [("c1", .obj (some emptyConv))]⟩

/-- App state with the empty conversation selected and no pending turn. -/
def baseState : AppState :=
  ⟨[⟨"c1", "2024-05-01T00:00:00.000Z", "New Conversation", 0⟩], some "c1", some emptyConv,
   false, [], none, none, none, baseStore, "2024-05-01T00:00:01.000Z"⟩

/-- App state mid-clarification: the service asked for clarification of
"What is 2+2?" and the answer is pending. -/
def clarState : AppState :=
  { baseState with pendingClarification := some "clar", originalQuery := some "What is 2+2?" }

/-- A conversation with an open turn (user message plus assistant
placeholder). -/
def openConv : Conversation :=
  ⟨some "c1", some "2024-05-01T00:00:00.000Z", some "New Conversation",
   [mkUserMessage "What is 2+2?", assistantPlaceholder]⟩

def openState : AppState := { baseState with currentConversation := some openConv }

/-- Concrete check of claim C8 at a `stage2_complete` event applied to an
open turn. -/
theorem claim_C8_event_frame_witness :
    ∃ c' m',
      (applyStreamEvent openState (.stage2Complete "rankings" (some "md"))).currentConversation
        = some c' ∧
      c'.messages = [mkUserMessage "What is 2+2?"] ++ [m'] ∧
      ∀ g : MsgField, g ∉ eventFootprint (.stage2Complete "rankings" (some "md")) →
        m'.getField g = assistantPlaceholder.getField g :=
  claim_C8_event_frame openState (.stage2Complete "rankings" (some "md")) openConv
    [mkUserMessage "What is 2+2?"] assistantPlaceholder rfl rfl

/-- Claim C3: if the transport throws anywhere during a turn, exactly the
two just-appended messages are removed again: the in-memory log and the
persisted record both return to the pre-call message list. -/
theorem claim_C3_transport_rollback (st : AppState) (c : Conversation) (i : String)
    (content : String) (skip : Bool) (events : List StreamEvent)
    (hid : jsFalsyOptStr st.currentConversationId = false)
    (hcc : st.currentConversation = some c)
    (hi : c.id = some i) (hne : i ≠ "") :
    ∃ conv',
      (sendMessageTop st content skip events true).1.currentConversation = some conv' ∧
      conv'.messages = c.messages ∧ conv'.id = c.id ∧
      localConversations.get (sendMessageTop st content skip events true).1.store i
        = some (.record conv') := by
  rw [sendMessageTop_eq st content skip events true c hid hcc]
  have hpre : (sendPrelude st content).currentConversation = some c := by
    rw [sendPrelude_conv]
    exact hcc
  have h3 := appendMessage_conv (sendPrelude st content) (mkUserMessage content) c hpre
  have h4 := appendMessage_conv _ assistantPlaceholder _ h3
  obtain ⟨c5, m', h5, hmsgs, hid5, _⟩ := runEvents_spec events _ _
    (c.messages ++ [mkUserMessage content]) assistantPlaceholder h4 rfl
  obtain ⟨hA, hB⟩ := rollbackTurn_spec _ c5 c.messages (mkUserMessage content) m' i
    h5 hmsgs (hid5.trans hi) hne
  exact ⟨{ c5 with messages := c.messages }, hA, rfl, by simpa using hid5, hB⟩

/-- Concrete run of claim C3: the transport delivers one event and then
throws; the conversation and its stored record are back to empty. -/
theorem claim_C3_transport_rollback_witness :
    ∃ conv',
      (sendMessageTop baseState "hi" false [.stage1Start] true).1.currentConversation
        = some conv' ∧
      conv'.messages = emptyConv.messages ∧ conv'.id = emptyConv.id ∧
      localConversations.get (sendMessageTop baseState "hi" false [.stage1Start] true).1.store
          "c1" = some (.record conv') :=
  claim_C3_transport_rollback baseState emptyConv "c1" "hi" false [.stage1Start]
    (by decide) rfl rfl (by decide)

/-- Claim C2 (amended): an `error` stream event only clears the loading
indicator; the optimistically appended user and assistant messages are NOT
removed — after a turn whose stream contained any events (including
`error`), the log holds the pre-turn messages plus exactly the two appended
ones. Rollback happens only when the transport throws. -/
theorem claim_C2_error_event (st : AppState) (c : Conversation) (content : String)
    (skip : Bool) (events : List StreamEvent)
    (hid : jsFalsyOptStr st.currentConversationId = false)
    (hcc : st.currentConversation = some c) :
    (∀ (s : AppState) (msg : String),
      applyStreamEvent s (.errorEvent msg) = { s with isLoading := false }) ∧
    ∃ conv',
      (sendMessageTop st content skip events false).1.currentConversation = some conv' ∧
      conv'.messages.length = c.messages.length + 2 := by
  refine ⟨fun s msg => rfl, ?_⟩
  rw [sendMessageTop_eq st content skip events false c hid hcc]
  have hpre : (sendPrelude st content).currentConversation = some c := by
    rw [sendPrelude_conv]
    exact hcc
  have h3 := appendMessage_conv (sendPrelude st content) (mkUserMessage content) c hpre
  have h4 := appendMessage_conv _ assistantPlaceholder _ h3
  obtain ⟨c5, m', h5, hmsgs, _, _⟩ := runEvents_spec events _ _
    (c.messages ++ [mkUserMessage content]) assistantPlaceholder h4 rfl
  refine ⟨c5, h5, ?_⟩
  rw [hmsgs]
  simp

/-- Counterexample to claim C2 as stated: after a stream consisting of an
`error` event, `messages.length` is 2, not its pre-turn value 0 — the error
handler does not roll the optimistic messages back. -/
theorem claim_C2_counterexample :
    ((sendMessageTop baseState "What is 2+2?" false [.errorEvent "boom"] false).1.currentConversation.map
      (fun c => c.messages.length)) = some 2 ∧ (2 : Nat) ≠ 0 := by
  constructor
  · rfl
  · decide

/-- Concrete run of the amended claim C2 on the error-event stream. -/
theorem claim_C2_error_event_witness :
    (∀ (s : AppState) (msg : String),
      applyStreamEvent s (.errorEvent msg) = { s with isLoading := false }) ∧
    ∃ conv',
      (sendMessageTop baseState "What is 2+2?" false [.errorEvent "boom"] false).1.currentConversation
        = some conv' ∧
      conv'.messages.length = emptyConv.messages.length + 2 :=
  claim_C2_error_event baseState emptyConv "What is 2+2?" false [.errorEvent "boom"]
    (by decide) rfl

/-- Claim C4: a `sendMessage` issued while a clarification is pending (with
the original query recorded) forces `skip_clarification = true` regardless
of the caller-supplied flag, sends the original query concatenated with the
separator and the new content, and clears the pending-clarification state
(which stays cleared provided the new stream does not itself request
clarification again). -/
theorem claim_C4_pending_clarification (st : AppState) (c : Conversation)
    (p q content : String) (skip : Bool) (events : List StreamEvent) (fails : Bool)
    (hid : jsFalsyOptStr st.currentConversationId = false)
    (hcc : st.currentConversation = some c)
    (hp : st.pendingClarification = some p)
    (hq : st.originalQuery = some q) (hqne : q ≠ "") :
    ∃ r, (sendMessageTop st content skip events fails).2 = some r ∧
      r.skip_clarification = true ∧
      r.content = q ++ "\n\nAdditional context: " ++ content ∧
      ((∀ d, StreamEvent.clarificationNeeded d ∉ events) →
        (sendMessageTop st content skip events fails).1.pendingClarification = none) := by
  have hb1 : st.pendingClarification.isSome = true := by simp [hp]
  have hb2 : jsTruthyOptStr st.originalQuery = true := by
    simp [jsTruthyOptStr, jsFalsyOptStr, hq, hqne]
  have hu : (st.pendingClarification.isSome && jsTruthyOptStr st.originalQuery) = true := by
    simp [hb1, hb2]
  rw [sendMessageTop_eq st content skip events fails c hid hcc]
  have hb3 : jsTruthyOptStr (some q) = true := by
    simp [jsTruthyOptStr, jsFalsyOptStr, hqne]
  refine ⟨mkReq st content skip c, rfl, ?_, ?_, ?_⟩
  · simp [mkReq, hb1, hb2, hb3]
  · simp [mkReq, hb1, hb2, hb3, hq]
  · intro hnc
    cases fails with
    | false =>
        show (runEvents (appendMessage (appendMessage (sendPrelude st content)
          (mkUserMessage content)) assistantPlaceholder) events).pendingClarification = none
        rw [runEvents_pending events _ hnc, appendMessage_pending, appendMessage_pending,
          sendPrelude_pending st content hu]
    | true =>
        show (rollbackTurn (runEvents (appendMessage (appendMessage (sendPrelude st content)
          (mkUserMessage content)) assistantPlaceholder) events)).pendingClarification = none
        rw [rollbackTurn_pending, runEvents_pending events _ hnc, appendMessage_pending,
          appendMessage_pending, sendPrelude_pending st content hu]

/-- Concrete run of claim C4: the caller passes `skipClarification = false`,
yet the outgoing request carries `skip_clarification = true` and the merged
content, and the pending flag is cleared. -/
theorem claim_C4_pending_clarification_witness :
    ∃ r, (sendMessageTop clarState "It is arithmetic" false [] false).2 = some r ∧
      r.skip_clarification = true ∧
      r.content = "What is 2+2?" ++ "\n\nAdditional context: " ++ "It is arithmetic" ∧
      ((∀ d, StreamEvent.clarificationNeeded d ∉ ([] : List StreamEvent)) →
        (sendMessageTop clarState "It is arithmetic" false [] false).1.pendingClarification
          = none) :=
  claim_C4_pending_clarification clarState emptyConv "clar" "What is 2+2?"
    "It is arithmetic" false [] false (by decide) rfl rfl rfl (by decide)

/-- Claim C5 is false on the code (code bug): `handleSkipClarification`
calls `setPendingClarification(null)` and then invokes the same render's
`handleSendMessage` closure, which still reads the snapshot where the
clarification is pending — so the re-sent turn takes the merge branch and
sends the original query concatenated with itself, not the original query
unchanged (the code's own comment says "Re-send the original query").
`skip_clarification` is still true. -/
theorem claim_C5_skip_resends_duplicated :
    ∃ r, (handleSkipClarification clarState [] false).2 = some r ∧
      r.skip_clarification = true ∧
      r.content = "What is 2+2?\n\nAdditional context: What is 2+2?" ∧
      r.content ≠ "What is 2+2?" := by
  refine ⟨⟨"What is 2+2?\n\nAdditional context: What is 2+2?", none, [], true, true⟩,
    ?_, rfl, rfl, by decide⟩
  rfl
